import Mathlib

/-!
Verification development for a Go source-file splitter.

The program parses one Go file, separates its top-level declarations
into imports, type declarations and function declarations, partitions the
functions into `numFiles` contiguous groups, filters the import list per
group down to the imports whose bound name is referenced by the group, and
writes each group to `<base>_<suffix>.go` with a suffix derived from the
group's function names with collision avoidance against a directory
snapshot and the suffixes already used in the run.

The definitions below are a shallow embedding of `splitGoFile`,
`extractImports`/`extractTypeDecls`/`extractFunctions` (represented by the
already-separated lists handed to `splitGoFile`), `analyzeRequiredImports`,
`generateFilenameSuffix`, `generateUniqueFilenameSuffix` and the write loop
of `splitGoFile` from `main.go`.  Go maps `map[string]bool` are embedded as
`String → Bool`; file-system writes are embedded through an oracle
`writeOk : String → Bool` saying which target paths can be created.  The
output directory is fixed for a whole run, so filenames are represented by
their directory-relative form `<base>_<suffix>.go` (the Go code joins the
directory path only when opening the file, and keys its snapshot map by the
bare entry name); errors built with `fmt.Errorf` are embedded by their
static message prefix.  Parsing (`parser.ParseFile`) and printing
(`format.Node`) are the language oracle the specification assumes correct,
so `splitGoFile` is embedded from the point where the package
name, imports, type declarations and functions have been extracted.
-/

/-- A Go AST node as far as `ast.Inspect` in `analyzeRequiredImports` looks
at it: an identifier, a selector expression `X.Sel` (whose `Sel` field is
itself an identifier node and is therefore also visited), or any other node
holding a list of children. -/
inductive GoNode where
  | ident (name : String)
  | selector (x : GoNode) (sel : String)
  | other (children : List GoNode)
deriving Repr

/-- An `*ast.FuncDecl`: the declared name (`fn.Name`, `none` embedding a nil
name) plus the remaining child subtrees (receiver, signature, body) that
`ast.Inspect` traverses. -/
structure FuncDecl where
  name : Option String
  body : List GoNode
deriving Repr

/-- An `*ast.GenDecl` with `Tok == token.TYPE`: the child subtrees that
`ast.Inspect` traverses. -/
structure GenDecl where
  nodes : List GoNode
deriving Repr

/-- An `*ast.ImportSpec`: optional alias name and the quoted path literal
(`imp.Path.Value`, quotes included, as in the Go AST). -/
structure ImportSpec where
  name : Option String
  path : String
deriving Repr, DecidableEq

/-- One output file produced by the split loop: the chosen filename suffix,
the type declarations placed in it, its function group, and its
filtered import list. -/
structure OutputFile where
  suffix : String
  types : List GenDecl
  funcs : List FuncDecl
  imports : List ImportSpec
deriving Repr

/-- Whether `sub` is a prefix of `l` (character-wise). -/
def hasPrefixChars : List Char → List Char → Bool
  | [], _ => true
  | _ :: _, [] => false
  | a :: as, b :: bs => a == b && hasPrefixChars as bs

/-- Whether `sub` occurs contiguously inside `l`. -/
def containsChars (sub : List Char) : List Char → Bool
  | [] => hasPrefixChars sub []
  | c :: rest => hasPrefixChars sub (c :: rest) || containsChars sub rest

/-- `strings.Contains(s, sub)`. -/
def goContains (s sub : String) : Bool :=
  containsChars sub.toList s.toList

/-- `strings.Trim(s, "\"")`: remove all leading and trailing quote
characters. -/
def trimQuotes (s : String) : String :=
  String.mk (((s.toList.dropWhile (fun c => c == '"')).reverse.dropWhile
    (fun c => c == '"')).reverse)

/-- The bound name of an import, as computed in `analyzeRequiredImports`:
the alias if present, otherwise the last `/`-separated segment of the
unquoted import path. -/
def importName (imp : ImportSpec) : String :=
  match imp.name with
  | some n => n
  | none =>
    let importPath := trimQuotes imp.path
    let parts := importPath.splitOn ("/")
    parts.getLastD ("")

/-- The identifiers recorded by `ast.Inspect` in `analyzeRequiredImports`
while walking one subtree: every identifier node contributes its name, and
a selector expression whose receiver `X` is an identifier additionally
contributes that receiver name. -/
def collectIdents : GoNode → List String
  | .ident n => [n]
  | .selector x sel =>
    (match x with
     | .ident n => [n]
     | _ => []) ++ collectIdents x ++ [sel]
  | .other [] => []
  | .other (c :: cs) => collectIdents c ++ collectIdents (.other cs)

/-- Identifiers collected from a function declaration (`ast.Inspect(fn, …)`
visits `fn.Name` and then the remaining subtrees). -/
def funcIdents (fn : FuncDecl) : List String :=
  (match fn.name with
   | some n => [n]
   | none => []) ++ (fn.body.map collectIdents).flatten

/-- Identifiers collected from a type declaration. -/
def declIdents (d : GenDecl) : List String :=
  (d.nodes.map collectIdents).flatten

/-- The `usedIdentifiers` set of `analyzeRequiredImports`, embedded as the
list of all recorded identifiers (the Go `map[string]bool` is only ever
queried for membership). -/
def usedIdentifiers (functions : List FuncDecl) (typeDecls : List GenDecl) : List String :=
  (functions.map funcIdents).flatten ++ (typeDecls.map declIdents).flatten

/-- `analyzeRequiredImports` from `main.go`: keep, in original order,
the imports whose bound name is in the collected identifier set. -/
def analyzeRequiredImports (functions : List FuncDecl) (typeDecls : List GenDecl)
    (allImports : List ImportSpec) : List ImportSpec :=
  let used := usedIdentifiers functions typeDecls
  allImports.filter (fun imp => used.contains (importName imp))

/-- The fixed keyword vocabulary of `generateFilenameSuffix`, in source
order. -/
def keywords : List String :=
  [
    "parse", "generate", "create", "process", "handle", "convert", "build", "render", "execute",
    "validate", "format", "transform", "encode", "decode", "load", "save", "write", "read",
    "get", "set", "add", "remove", "update", "delete", "find", "search", "filter", "sort",
    "merge", "split", "join", "copy", "move", "clean", "init", "start", "stop", "run", "exec",
    "call", "invoke", "apply", "map", "reduce", "collect", "stream", "buffer", "cache", "store",
    "fetch", "send", "receive", "upload", "download", "compress", "extract", "zip", "unzip",
    "backup", "restore", "sync", "async", "wait", "notify", "signal", "lock", "unlock", "open",
    "close", "connect", "disconnect", "bind", "unbind", "listen", "serve", "request",
    "response", "query", "insert", "select", "count", "sum", "max", "min", "avg", "group",
    "order", "limit", "offset", "page", "chunk", "batch", "parallel", "serial", "concurrent",
    "thread", "worker", "job", "task", "queue", "stack", "list", "array", "map", "set", "tree",
    "graph", "node", "edge", "path", "route", "url", "uri", "link", "ref", "ptr", "addr",
    "size", "len", "cap", "empty", "full", "contains", "exists", "valid", "invalid", "ok",
    "error", "warn", "info", "debug", "trace", "log", "print", "show", "display", "render",
    "draw", "paint", "color", "style", "theme", "skin", "layout", "align", "position", "size",
    "resize", "scale", "zoom", "pan", "scroll", "drag", "drop", "click", "hover", "focus",
    "blur", "select", "deselect", "toggle", "switch", "enable", "disable", "show", "hide",
    "visible", "invisible", "active", "inactive", "on", "off", "true", "false", "yes", "no",
    "ok", "cancel", "submit", "reset", "clear", "clean", "flush", "purge", "refresh", "reload",
    "restart", "resume", "pause", "play", "record", "replay", "undo", "redo", "cut", "copy",
    "paste", "clone", "duplicate", "mirror", "reflect", "invert", "reverse", "flip", "rotate",
    "shift", "move", "slide", "fade", "animate", "transition", "effect", "filter", "mask",
    "overlay", "background", "foreground", "layer", "depth", "level", "priority", "weight",
    "rank", "score", "rate", "ratio", "percent", "fraction", "decimal", "integer", "float",
    "double", "string", "char", "byte", "bit", "word", "line", "paragraph", "section",
    "chapter", "page", "document", "file", "folder", "directory", "path", "name", "title",
    "label", "tag", "attr", "prop", "field", "column", "row", "cell", "table", "grid", "matrix",
    "vector", "point", "coord", "pos", "loc", "place", "spot", "area", "region", "zone",
    "space", "room", "box", "container", "wrapper", "holder", "frame", "border", "edge",
    "corner", "side", "top", "bottom", "left", "right", "center", "middle", "inner", "outer",
    "inside", "outside", "before", "after", "first", "last", "next", "prev", "current", "new",
    "old", "temp", "tmp", "backup", "orig", "copy", "clone", "draft", "final", "test", "demo",
    "sample", "example", "template", "pattern", "model", "schema", "struct", "class", "type",
    "kind", "sort", "category", "group", "team", "user", "admin", "guest", "public", "private",
    "secure", "safe", "unsafe", "danger", "risk", "warn", "alert", "notice", "message", "text",
    "content", "data", "info", "meta", "config", "setting", "option", "param", "arg", "value",
    "result", "output", "input", "source", "target", "dest", "from", "to", "via", "through",
    "by", "with", "without", "using", "based", "upon", "over", "under", "above", "below",
    "between", "among", "within", "outside", "beyond", "across", "along", "around", "through",
    "during", "while", "until", "since", "before", "after", "when", "where", "what", "who",
    "why", "how", "which", "whose", "whom", "that", "this", "these", "those", "such", "same",
    "other", "another", "each", "every", "all", "any", "some", "none", "nothing", "something",
    "anything", "everything", "somewhere", "anywhere", "everywhere", "nowhere", "someone",
    "anyone", "everyone", "no one"
  ]

/-- The fixed alternative-word list of `generateUniqueFilenameSuffix`, in
source order. -/
def alternatives : List String :=
  [
    "core", "main", "base", "util", "helper", "common", "shared", "extra", "misc", "other",
    "new", "alt", "impl", "logic", "work", "task", "ops", "flow", "step", "part", "unit",
    "chunk", "block", "piece", "item", "elem", "node", "link", "path", "route", "view", "ctrl",
    "model", "data", "info", "meta", "config", "setup", "init", "boot", "start", "launch",
    "run", "exec", "proc", "action", "event", "state", "change", "update", "modify", "edit",
    "fix", "patch", "clean", "clear", "reset", "fresh", "quick", "fast", "slow", "temp",
    "local", "remote", "public", "private", "secure", "safe", "simple", "basic", "advanced",
    "custom", "special", "unique", "single", "multi", "batch", "group", "list", "set", "map",
    "tree", "graph", "queue", "stack", "buffer", "cache", "store", "load", "save", "fetch",
    "send", "recv", "sync", "async", "wait", "done", "ready", "active", "idle", "busy", "free",
    "open", "close", "lock", "unlock", "check", "test", "verify", "valid", "error", "warn",
    "debug", "trace", "log", "print", "show", "hide", "render", "draw", "build", "make",
    "craft", "forge", "shape", "form", "mold", "cast", "press", "push", "pull", "move", "shift",
    "slide", "jump", "skip", "next", "prev", "first", "last", "top", "bottom", "left", "right",
    "center", "middle", "inner", "outer", "upper", "lower", "high", "low", "big", "small",
    "large", "tiny", "huge", "mini", "full", "empty", "blank", "void", "null", "zero", "one",
    "two", "three", "many", "few", "some", "all", "none", "auto", "manual", "smart", "dumb",
    "cool", "warm", "hot", "cold", "wet", "dry", "soft", "hard", "light", "dark", "bright",
    "dim", "loud", "quiet", "fast", "slow", "old", "young", "rich", "poor", "true", "false",
    "good", "bad", "nice", "ugly", "clean", "dirty", "pure", "mixed", "solid", "liquid", "gas",
    "fire", "water", "earth", "air", "wood", "metal", "stone", "glass", "paper", "cloth",
    "rope", "wire", "pipe", "tube", "box", "bag", "cup", "bowl", "plate", "knife", "fork",
    "spoon", "tool", "gear", "part", "chip", "disk", "tape", "card", "key", "lock", "door",
    "window", "wall", "floor", "roof", "room", "house", "city", "town", "road", "street",
    "bridge", "river", "lake", "sea", "ocean", "mountain", "hill", "tree", "flower", "grass",
    "leaf", "seed", "fruit", "root", "branch", "trunk", "bark", "wood", "forest", "field",
    "farm", "garden", "park", "zoo", "museum", "school", "library", "store", "shop", "market",
    "bank", "office", "factory", "lab", "studio", "theater", "cinema", "restaurant", "cafe",
    "hotel", "hospital", "church", "temple", "castle", "tower", "bridge", "tunnel", "cave",
    "valley", "desert", "island", "beach", "shore", "coast", "port", "harbor", "dock", "ship",
    "boat", "plane", "train", "car", "bike", "truck", "bus", "taxi", "rocket", "satellite",
    "star", "moon", "sun", "planet", "comet", "meteor", "galaxy", "universe", "space", "time",
    "year", "month", "week", "day", "hour", "minute", "second", "moment", "instant", "flash",
    "spark", "flame", "smoke", "cloud", "rain", "snow", "ice", "frost", "dew", "mist", "fog",
    "wind", "storm", "thunder", "lightning", "rainbow", "shadow", "light", "beam", "ray",
    "wave", "sound", "music", "song", "voice", "word", "letter", "number", "symbol", "sign",
    "mark", "dot", "line", "curve", "circle", "square", "triangle", "diamond", "heart", "star",
    "cross", "arrow", "spiral", "wave", "grid", "mesh", "net", "web", "thread", "string",
    "rope", "chain", "link", "bond", "tie", "knot", "loop", "ring", "band", "strip", "belt",
    "strap", "handle", "grip", "hold", "grasp", "touch", "feel", "sense", "see", "look",
    "watch", "view", "scan", "search", "find", "seek", "hunt", "track", "follow", "lead",
    "guide", "direct", "point", "aim", "target", "goal", "end", "finish", "complete", "done",
    "over", "final", "last", "stop", "halt", "pause", "break", "rest", "sleep", "wake", "rise",
    "fall", "drop", "lift", "raise", "lower", "turn", "spin", "rotate", "twist", "bend", "fold",
    "open", "close", "shut", "seal", "break", "crack", "split", "join", "merge", "unite",
    "divide", "separate", "cut", "slice", "chop", "tear", "rip", "grab", "catch", "throw",
    "toss", "cast", "shoot", "fire", "blast", "explode", "crash", "smash", "hit", "strike",
    "punch", "kick", "stomp", "step", "walk", "run", "jog", "sprint", "rush", "hurry", "slow",
    "crawl", "climb", "jump", "leap", "hop", "skip", "dance", "swim", "dive", "float", "fly",
    "soar", "glide", "drift", "flow", "stream", "rush", "pour", "drip", "leak", "spill",
    "splash", "spray", "mist", "dust", "powder", "grain", "sand", "dirt", "mud", "clay", "rock",
    "stone", "pebble", "boulder", "crystal", "gem", "gold", "silver", "copper", "iron", "steel",
    "brass", "bronze", "tin", "lead", "zinc", "chrome", "nickel", "cobalt", "carbon", "silicon",
    "oxygen", "hydrogen", "nitrogen", "helium", "neon", "argon", "mercury", "venus", "mars",
    "jupiter", "saturn", "uranus", "neptune", "pluto"
  ]

/-- `strings.ToLower` on one character, for the ASCII range the tool's
function names live in. -/
def charLower (c : Char) : Char :=
  if c.toNat ≥ 65 && c.toNat ≤ 90 then Char.ofNat (c.toNat + 32) else c

/-- `strings.ToLower` (ASCII range). -/
def goToLower (s : String) : String := String.mk (s.toList.map charLower)

/-- `fmt.Sprintf("%s_%s.go", baseFileName, suffix)`. -/
def mkFilename (baseFileName suffix : String) : String :=
  baseFileName ++ "_" ++ suffix ++ ".go"

/-- `generateFilenameSuffix` from `main.go`: "types" for the type-bearing
group; otherwise the first vocabulary keyword that is a substring of some
lower-cased function name; otherwise the lower-cased first character of the
first function name; with "empty"/"funcs" degenerate cases. -/
def generateFilenameSuffix (functions : List FuncDecl) (hasTypes : Bool) : String :=
  if hasTypes then ("types")
  else if functions.length == 0 then ("empty")
  else
    let funcNames := functions.filterMap (fun fn => fn.name.map goToLower)
    if funcNames.length == 0 then ("funcs")
    else
      match keywords.find? (fun keyword => funcNames.any (fun nm => goContains nm keyword)) with
      | some keyword => keyword
      | none =>
        match funcNames with
        | [] => "funcs"
        | firstName :: _ =>
          match firstName.toList with
          | [] => "funcs"
          | c :: _ => goToLower (String.mk [c])

/-- The `for _, alt := range alternatives` loop of
`generateUniqueFilenameSuffix`: first entry whose filename is not in the
directory snapshot and that is not an already-used suffix. -/
def findFreeAlternative (baseFileName : String) (existingFiles usedNames : String → Bool) :
    List String → Option String
  | [] => none
  | alt :: rest =>
    let filename := mkFilename baseFileName alt
    if !existingFiles filename && !usedNames alt then some alt
    else findFreeAlternative baseFileName existingFiles usedNames rest

/-- The `for i := 1; i <= 999; i++` loop of `generateUniqueFilenameSuffix`:
first numbered suffix `baseSuffix ++ i` that is collision-free, counting
`fuel` candidates starting at `i`. -/
def findFreeNumbered (baseSuffix baseFileName : String)
    (existingFiles usedNames : String → Bool) : Nat → Nat → Option String
  | 0, _ => none
  | fuel + 1, i =>
    let testSuffix := baseSuffix ++ Nat.repr i
    let filename := mkFilename baseFileName testSuffix
    if !existingFiles filename && !usedNames testSuffix then some testSuffix
    else findFreeNumbered baseSuffix baseFileName existingFiles usedNames fuel (i + 1)

/-- `generateUniqueFilenameSuffix` from `main.go`. -/
def generateUniqueFilenameSuffix (functions : List FuncDecl) (hasTypes : Bool)
    (baseFileName : String) (existingFiles usedNames : String → Bool) : String :=
  let baseSuffix := generateFilenameSuffix functions hasTypes
  let suffix := baseSuffix
  let filename := mkFilename baseFileName suffix
  if !existingFiles filename && !usedNames suffix then suffix
  else
    match findFreeAlternative baseFileName existingFiles usedNames alternatives with
    | some s => s
    | none =>
      match findFreeNumbered baseSuffix baseFileName existingFiles usedNames 999 1 with
      | some s => s
      | none => baseSuffix ++ "999"

/-- All candidate suffixes `generateUniqueFilenameSuffix` is willing to
check for freeness before reaching its unchecked terminal fallback: the
base suffix, the alternative-word list, and the numbered variants
`baseSuffix1` … `baseSuffix999`. -/
def suffixCandidates (baseSuffix : String) : List String :=
  baseSuffix :: alternatives ++ (List.range' 1 999).map (fun i => baseSuffix ++ Nat.repr i)

/-- The `funcsPerFile` computation of `splitGoFile`:
`len/numFiles`, incremented when the division has a remainder. -/
def funcsPerFileCalc (numFunctions numFiles : Nat) : Nat :=
  if numFunctions % numFiles != 0 then numFunctions / numFiles + 1
  else numFunctions / numFiles

/-- The `for i := 0; i < numFiles; i++` loop of `splitGoFile`, with
`fuel = numFiles - i` remaining iterations, threading the `usedNames` set.
Returns the created output files in order, together with `splitGoFile`'s
result (`Except.error` aborts the loop on the first failed write). -/
def splitGoFileLoop (typeDecls : List GenDecl) (functions : List FuncDecl)
    (imports : List ImportSpec) (funcsPerFile : Nat) (baseFileName : String)
    (existingFiles writeOk : String → Bool) :
    Nat → Nat → (String → Bool) → List OutputFile × Except String Unit
  | 0, _, _ => ([], Except.ok ())
  | fuel + 1, i, usedNames =>
    let start := i * funcsPerFile
    let e := min (start + funcsPerFile) functions.length
    if functions.length ≤ start then ([], Except.ok ())
    else
      let groupFns := (functions.drop start).take (e - start)
      let typesForFile := if i == 0 then typeDecls else []
      let suffix := generateUniqueFilenameSuffix groupFns (i == 0) baseFileName
        existingFiles usedNames
      let usedNames' := fun s => if s == suffix then true else usedNames s
      let outputFile := mkFilename baseFileName suffix
      let requiredImports := analyzeRequiredImports groupFns typesForFile imports
      if writeOk outputFile then
        let rest := splitGoFileLoop typeDecls functions imports funcsPerFile baseFileName
          existingFiles writeOk fuel (i + 1) usedNames'
        (⟨suffix, typesForFile, groupFns, requiredImports⟩ :: rest.1, rest.2)
      else
        ([], Except.error ("failed to write " ++ outputFile))

/-- `splitGoFile` from `main.go`, after parsing and extraction: fails when
no functions were found, otherwise runs the group/write loop.  The first
component is the list of files actually created. -/
def splitGoFile (typeDecls : List GenDecl) (functions : List FuncDecl)
    (imports : List ImportSpec) (numFiles : Nat) (baseFileName : String)
    (existingFiles writeOk : String → Bool) : List OutputFile × Except String Unit :=
  if functions.length == 0 then ([], Except.error ("no functions found in file"))
  else
    let funcsPerFile := funcsPerFileCalc functions.length numFiles
    splitGoFileLoop typeDecls functions imports funcsPerFile baseFileName
      existingFiles writeOk numFiles 0 (fun _ => false)

/-- A sample input: `k` functions named `q0 … q(k-1)` with empty bodies. -/
def sampleFns (k : Nat) : List FuncDecl :=
  (List.range k).map (fun j => ⟨some ("q" ++ Nat.repr j), []⟩)

/-- A sample function group whose body contains the selector `fmt.Println`. -/
def sampleImportFns : List FuncDecl :=
  [⟨some ("UseFmt"), [GoNode.selector (GoNode.ident ("fmt")) ("Println")]⟩]

/-- A sample import list: `"fmt"` and `"go/ast"` (no aliases). -/
def sampleImports : List ImportSpec := [⟨none, "\"fmt\""⟩, ⟨none, "\"go/ast\""⟩]

/-- The pure partition underlying the loop: the function group examined at
iteration `i` with `fuel` iterations remaining. -/
def splitGroupsAux (functions : List FuncDecl) (funcsPerFile : Nat) :
    Nat → Nat → List (List FuncDecl)
  | 0, _ => []
  | fuel + 1, i =>
    let start := i * funcsPerFile
    let e := min (start + funcsPerFile) functions.length
    if functions.length ≤ start then []
    else (functions.drop start).take (e - start) ::
      splitGroupsAux functions funcsPerFile fuel (i + 1)

theorem splitGoFileLoop_map_funcs (tds : List GenDecl) (fns : List FuncDecl)
    (imps : List ImportSpec) (fpf : Nat) (base : String) (ex : String → Bool) :
    ∀ fuel i used,
      ((splitGoFileLoop tds fns imps fpf base ex (fun _ => true) fuel i used).1).map
        (fun o => o.funcs) = splitGroupsAux fns fpf fuel i
  | 0, _, _ => rfl
  | fuel + 1, i, used => by
    simp only [splitGoFileLoop, splitGroupsAux]
    split
    · rfl
    · simp only [List.map_cons, if_true]
      rw [splitGoFileLoop_map_funcs tds fns imps fpf base ex fuel (i + 1) _]

theorem splitGroupsAux_flatten (fns : List FuncDecl) (fpf : Nat) :
    ∀ fuel i, (splitGroupsAux fns fpf fuel i).flatten =
      (fns.drop (i * fpf)).take (fuel * fpf)
  | 0, i => by simp [splitGroupsAux]
  | fuel + 1, i => by
    simp only [splitGroupsAux]
    split
    · rename_i h
      rw [List.drop_eq_nil_of_le h]
      simp
    · rename_i h
      push_neg at h
      rw [List.flatten_cons, splitGroupsAux_flatten fns fpf fuel (i + 1)]
      have h1 : (fns.drop (i * fpf)).take (min (i * fpf + fpf) fns.length - i * fpf)
          = (fns.drop (i * fpf)).take fpf := by
        rw [List.take_eq_take]
        simp [List.length_drop]
        omega
      rw [h1]
      have h2 : fns.drop ((i + 1) * fpf) = (fns.drop (i * fpf)).drop fpf := by
        rw [List.drop_drop]
        ring_nf
      rw [h2, ← List.take_add]
      congr 1
      ring

theorem length_le_mul_funcsPerFile (f n : Nat) (hn : 1 ≤ n) :
    f ≤ n * funcsPerFileCalc f n := by
  have hm : n * (f / n) + f % n = f := Nat.div_add_mod f n
  have hlt : f % n < n := Nat.mod_lt _ (by omega)
  unfold funcsPerFileCalc
  split <;> rename_i h <;> simp only [bne_iff_ne, ne_eq, not_not] at h
  · rw [Nat.mul_add]; omega
  · omega

theorem one_le_funcsPerFile (f n : Nat) (hf : 1 ≤ f) :
    1 ≤ funcsPerFileCalc f n := by
  have hm : n * (f / n) + f % n = f := Nat.div_add_mod f n
  unfold funcsPerFileCalc
  split <;> rename_i h <;> simp only [bne_iff_ne, ne_eq, not_not] at h
  · exact Nat.succ_le_succ (Nat.zero_le _)
  · rcases Nat.eq_zero_or_pos (f / n) with h0 | h0
    · rw [h0, Nat.mul_zero] at hm; omega
    · exact h0

/-- C1 scratch -/
theorem split_preserves_functions (tds : List GenDecl) (fns : List FuncDecl)
    (imps : List ImportSpec) (n : Nat) (base : String) (ex : String → Bool)
    (hn : 1 ≤ n) (hf : fns ≠ []) :
    (((splitGoFile tds fns imps n base ex (fun _ => true)).1).map (fun o => o.funcs)).flatten
      = fns := by
  have hlen : 1 ≤ fns.length := List.length_pos.mpr hf
  unfold splitGoFile
  rw [if_neg (by simp only [beq_iff_eq]; omega)]
  rw [splitGoFileLoop_map_funcs, splitGroupsAux_flatten]
  simp only [Nat.zero_mul, List.drop_zero]
  exact List.take_of_length_le (length_le_mul_funcsPerFile fns.length n hn)

theorem splitGroupsAux_ne_nil (fns : List FuncDecl) (fpf : Nat) (fuel i : Nat) :
    splitGroupsAux fns fpf fuel i ≠ [] ↔ 0 < fuel ∧ i * fpf < fns.length := by
  cases fuel with
  | zero => simp [splitGroupsAux]
  | succ k =>
    simp only [splitGroupsAux]
    split <;> rename_i h <;> simp <;> omega

theorem splitGroupsAux_mem_length (fns : List FuncDecl) (fpf : Nat) :
    ∀ fuel i, ∀ g ∈ splitGroupsAux fns fpf fuel i,
      g.length ≤ fpf ∧ (1 ≤ fpf → g ≠ [])
  | 0, i => by simp [splitGroupsAux]
  | fuel + 1, i => by
    simp only [splitGroupsAux]
    split
    · simp
    · rename_i h
      push_neg at h
      intro g hg
      rcases List.mem_cons.mp hg with hg | hg
      · subst hg
        simp only [List.length_take, List.length_drop, ← List.length_pos, List.length_take,
          List.length_drop]
      
        constructor
        · omega
        · intro h1; omega
      · exact splitGroupsAux_mem_length fns fpf fuel (i + 1) g hg

theorem splitGroupsAux_dropLast (fns : List FuncDecl) (fpf : Nat) :
    ∀ fuel i, ∀ g ∈ (splitGroupsAux fns fpf fuel i).dropLast, g.length = fpf
  | 0, i => by simp [splitGroupsAux]
  | fuel + 1, i => by
    simp only [splitGroupsAux]
    split
    · simp
    · rename_i h
      push_neg at h
      by_cases htail : splitGroupsAux fns fpf fuel (i + 1) = []
      · rw [htail]
        simp
      · have hcond := (splitGroupsAux_ne_nil fns fpf fuel (i + 1)).mp htail
        have hmul : (i + 1) * fpf = i * fpf + fpf := by ring
        rw [List.dropLast_cons_of_ne_nil htail]
        intro g hg
        rcases List.mem_cons.mp hg with hg | hg
        · subst hg
          simp only [List.length_take, List.length_drop]
          omega
        · exact splitGroupsAux_dropLast fns fpf fuel (i + 1) g hg

theorem splitGroupsAux_length (fns : List FuncDecl) (fpf : Nat) (hfpf : 1 ≤ fpf) :
    ∀ fuel i, (splitGroupsAux fns fpf fuel i).length
      = min fuel ((fns.length - i * fpf + fpf - 1) / fpf)
  | 0, i => by simp [splitGroupsAux]
  | fuel + 1, i => by
    simp only [splitGroupsAux]
    split
    · rename_i h
      have h0 : (fns.length - i * fpf + fpf - 1) / fpf = 0 :=
        Nat.div_eq_of_lt (by omega)
      simp [h0]
    · rename_i h
      push_neg at h
      simp only [List.length_cons, splitGroupsAux_length fns fpf hfpf fuel (i + 1)]
      have hmul : (i + 1) * fpf = i * fpf + fpf := by ring
      have harith : (fns.length - (i + 1) * fpf + fpf - 1) / fpf + 1
          = (fns.length - i * fpf + fpf - 1) / fpf := by
        rw [hmul]
        rcases le_or_lt (fns.length - i * fpf) fpf with hc | hc
        · have l1 : (fns.length - (i * fpf + fpf) + fpf - 1) / fpf = 0 :=
            Nat.div_eq_of_lt (by omega)
          have r1 : (fns.length - i * fpf + fpf - 1) / fpf = 1 := by
            apply Nat.div_eq_of_lt_le
            · omega
            · omega
          omega
        · have e1 : fns.length - (i * fpf + fpf) + fpf - 1
              = fns.length - i * fpf - 1 := by omega
          have e2 : fns.length - i * fpf + fpf - 1
              = (fns.length - i * fpf - 1) + fpf := by omega
          rw [e1, e2, Nat.add_div_right _ (by omega)]
      omega

theorem splitGoFile_count (tds : List GenDecl) (fns : List FuncDecl)
    (imps : List ImportSpec) (n : Nat) (base : String) (ex : String → Bool)
    (hn : 1 ≤ n) (hf : fns ≠ []) :
    ((splitGoFile tds fns imps n base ex (fun _ => true)).1).length
      = (fns.length + funcsPerFileCalc fns.length n - 1) / funcsPerFileCalc fns.length n := by
  have hlen : 1 ≤ fns.length := List.length_pos.mpr hf
  have hfpf : 1 ≤ funcsPerFileCalc fns.length n := one_le_funcsPerFile fns.length n hlen
  have hmul : fns.length ≤ n * funcsPerFileCalc fns.length n :=
    length_le_mul_funcsPerFile fns.length n hn
  have hmap : ((splitGoFile tds fns imps n base ex (fun _ => true)).1).length
      = (splitGroupsAux fns (funcsPerFileCalc fns.length n) n 0).length := by
    rw [← splitGoFileLoop_map_funcs tds fns imps (funcsPerFileCalc fns.length n) base ex n 0
      (fun _ => false), List.length_map]
    unfold splitGoFile
    rw [if_neg (by simp only [beq_iff_eq]; omega)]
  rw [hmap, splitGroupsAux_length fns _ hfpf n 0]
  simp only [Nat.zero_mul, Nat.sub_zero]
  apply min_eq_right
  rw [Nat.div_le_iff_le_mul_add_pred (by omega)]
  calc fns.length + funcsPerFileCalc fns.length n - 1
      ≤ n * funcsPerFileCalc fns.length n + (funcsPerFileCalc fns.length n - 1) := by omega
    _ = funcsPerFileCalc fns.length n * n + (funcsPerFileCalc fns.length n - 1) := by ring_nf

theorem splitGoFileLoop_types_nil (tds : List GenDecl) (fns : List FuncDecl)
    (imps : List ImportSpec) (fpf : Nat) (base : String) (ex wOk : String → Bool) :
    ∀ fuel i used, 1 ≤ i →
      ∀ o ∈ (splitGoFileLoop tds fns imps fpf base ex wOk fuel i used).1, o.types = []
  | 0, i, used => by simp [splitGoFileLoop]
  | fuel + 1, i, used => by
    intro hi
    simp only [splitGoFileLoop]
    split
    · simp
    · split
      · intro o ho
        rcases List.mem_cons.mp ho with ho | ho
        · subst ho
          simp only []
          rw [if_neg (by simp only [beq_iff_eq]; omega)]
        · exact splitGoFileLoop_types_nil tds fns imps fpf base ex wOk fuel (i + 1) _
            (by omega) o ho
      · simp

theorem splitGoFileLoop_imports_eq (tds : List GenDecl) (fns : List FuncDecl)
    (imps : List ImportSpec) (fpf : Nat) (base : String) (ex wOk : String → Bool) :
    ∀ fuel i used, ∀ o ∈ (splitGoFileLoop tds fns imps fpf base ex wOk fuel i used).1,
      o.imports = analyzeRequiredImports o.funcs o.types imps
  | 0, i, used => by simp [splitGoFileLoop]
  | fuel + 1, i, used => by
    simp only [splitGoFileLoop]
    split
    · simp
    · split
      · intro o ho
        rcases List.mem_cons.mp ho with ho | ho
        · subst ho
          rfl
        · exact splitGoFileLoop_imports_eq tds fns imps fpf base ex wOk fuel (i + 1) _ o ho
      · simp

theorem splitGoFile_head_types (tds : List GenDecl) (fns : List FuncDecl)
    (imps : List ImportSpec) (n : Nat) (base : String) (ex : String → Bool)
    (hn : 1 ≤ n) (hf : fns ≠ []) :
    ∃ o rest, (splitGoFile tds fns imps n base ex (fun _ => true)).1 = o :: rest ∧
      o.types = tds ∧ ∀ o' ∈ rest, o'.types = [] := by
  have hlen : 1 ≤ fns.length := List.length_pos.mpr hf
  unfold splitGoFile
  rw [if_neg (by simp only [beq_iff_eq]; omega)]
  cases n with
  | zero => omega
  | succ m =>
    simp only [splitGoFileLoop]
    rw [if_neg (by simp only [Nat.zero_mul]; omega)]
    refine ⟨_, _, rfl, rfl, ?_⟩
    exact splitGoFileLoop_types_nil tds fns imps _ base ex _ m 1 _ le_rfl

theorem splitGoFileLoop_allTrue_ok (tds : List GenDecl) (fns : List FuncDecl)
    (imps : List ImportSpec) (fpf : Nat) (base : String) (ex : String → Bool) :
    ∀ fuel i used,
      (splitGoFileLoop tds fns imps fpf base ex (fun _ => true) fuel i used).2
        = Except.ok ()
  | 0, i, used => rfl
  | fuel + 1, i, used => by
    simp only [splitGoFileLoop]
    split
    · rfl
    · simp only [if_true]
      exact splitGoFileLoop_allTrue_ok tds fns imps fpf base ex fuel (i + 1) _

theorem splitGoFileLoop_all_ok (tds : List GenDecl) (fns : List FuncDecl)
    (imps : List ImportSpec) (fpf : Nat) (base : String) (ex wOk : String → Bool) :
    ∀ fuel i used,
      (∀ o ∈ (splitGoFileLoop tds fns imps fpf base ex (fun _ => true) fuel i used).1,
        wOk (mkFilename base o.suffix) = true) →
      splitGoFileLoop tds fns imps fpf base ex wOk fuel i used
        = splitGoFileLoop tds fns imps fpf base ex (fun _ => true) fuel i used
  | 0, i, used => by intro _; rfl
  | fuel + 1, i, used => by
    intro hall
    simp only [splitGoFileLoop, if_true] at hall ⊢
    split
    · rfl
    · rename_i h
      rw [if_neg h] at hall
      have hhead := hall _ (List.mem_cons_self _ _)
      rw [if_pos hhead]
      rw [splitGoFileLoop_all_ok tds fns imps fpf base ex wOk fuel (i + 1) _
        (fun o ho => hall o (List.mem_cons_of_mem _ ho))]

theorem splitGoFileLoop_write_fail (tds : List GenDecl) (fns : List FuncDecl)
    (imps : List ImportSpec) (fpf : Nat) (base : String) (ex wOk : String → Bool) :
    ∀ fuel i used k si,
      (((splitGoFileLoop tds fns imps fpf base ex (fun _ => true) fuel i used).1).map
        (fun o => o.suffix))[k]? = some si →
      wOk (mkFilename base si) = false →
      (∀ s ∈ (((splitGoFileLoop tds fns imps fpf base ex (fun _ => true) fuel i used).1).map
        (fun o => o.suffix)).take k, wOk (mkFilename base s) = true) →
      splitGoFileLoop tds fns imps fpf base ex wOk fuel i used
        = (((splitGoFileLoop tds fns imps fpf base ex (fun _ => true) fuel i used).1).take k,
           Except.error ("failed to write " ++ mkFilename base si))
  | 0, i, used => by intro k si hk _ _; simp [splitGoFileLoop] at hk
  | fuel + 1, i, used => by
    intro k si hk hfail hpre
    simp only [splitGoFileLoop, if_true] at hk hpre ⊢
    by_cases h : fns.length ≤ i * fpf
    · rw [if_pos h] at hk
      simp at hk
    · rw [if_neg h] at hk hpre ⊢
      cases k with
      | zero =>
        simp only [List.map_cons, List.getElem?_cons_zero, Option.some.injEq] at hk
        subst hk
        rw [if_neg (by simp only [hfail]; exact Bool.false_ne_true)]
        simp
      | succ k =>
        simp only [List.map_cons, List.getElem?_cons_succ] at hk
        simp only [List.map_cons, List.take_succ_cons, List.mem_cons] at hpre
        have hhead : wOk (mkFilename base (generateUniqueFilenameSuffix
            ((fns.drop (i * fpf)).take (min (i * fpf + fpf) fns.length - i * fpf)) (i == 0)
            base ex used)) = true := hpre _ (Or.inl rfl)
        rw [if_pos hhead]
        rw [splitGoFileLoop_write_fail tds fns imps fpf base ex wOk fuel (i + 1) _ k si hk
          hfail (fun s hs => hpre s (Or.inr hs))]
        rw [if_neg h]
        simp only [List.take_succ_cons]

theorem findFreeAlternative_some_free (base : String) (ex used : String → Bool) :
    ∀ l s, findFreeAlternative base ex used l = some s →
      ex (mkFilename base s) = false ∧ used s = false
  | [], s => by simp [findFreeAlternative]
  | alt :: rest, s => by
    simp only [findFreeAlternative]
    split
    · rename_i hcheck
      intro hs
      cases hs
      simp only [Bool.and_eq_true, Bool.not_eq_true'] at hcheck
      exact hcheck
    · exact findFreeAlternative_some_free base ex used rest s

theorem findFreeAlternative_none (base : String) (ex used : String → Bool) :
    ∀ l, findFreeAlternative base ex used l = none →
      ∀ a ∈ l, ¬(ex (mkFilename base a) = false ∧ used a = false)
  | [], _ => by simp
  | alt :: rest, hnone => by
    intro a ha
    simp only [findFreeAlternative] at hnone
    split at hnone
    · exact absurd hnone (by simp)
    · rename_i hcheck
      rcases List.mem_cons.mp ha with ha | ha
      · subst ha
        intro hfree
        exact hcheck (by simp [hfree.1, hfree.2])
      · exact findFreeAlternative_none base ex used rest hnone a ha

theorem findFreeNumbered_some_free (bs base : String) (ex used : String → Bool) :
    ∀ fuel i s, findFreeNumbered bs base ex used fuel i = some s →
      ex (mkFilename base s) = false ∧ used s = false
  | 0, i, s => by simp [findFreeNumbered]
  | fuel + 1, i, s => by
    simp only [findFreeNumbered]
    split
    · rename_i hcheck
      intro hs
      cases hs
      simp only [Bool.and_eq_true, Bool.not_eq_true'] at hcheck
      exact hcheck
    · exact findFreeNumbered_some_free bs base ex used fuel (i + 1) s

theorem findFreeNumbered_none (bs base : String) (ex used : String → Bool) :
    ∀ fuel i, findFreeNumbered bs base ex used fuel i = none →
      ∀ j, i ≤ j → j < i + fuel →
        ¬(ex (mkFilename base (bs ++ Nat.repr j)) = false ∧ used (bs ++ Nat.repr j) = false)
  | 0, i, _, j, hj1, hj2 => by omega
  | fuel + 1, i, hnone, j, hj1, hj2 => by
    simp only [findFreeNumbered] at hnone
    split at hnone
    · exact absurd hnone (by simp)
    · rename_i hcheck
      rcases Nat.eq_or_lt_of_le hj1 with he | hlt
      · subst he
        intro hfree
        exact hcheck (by simp [hfree.1, hfree.2])
      · exact findFreeNumbered_none bs base ex used fuel (i + 1) hnone j hlt (by omega)

theorem generateUnique_free (fns : List FuncDecl) (ht : Bool) (base : String)
    (ex used : String → Bool)
    (hfree : ∃ c ∈ suffixCandidates (generateFilenameSuffix fns ht),
      ex (mkFilename base c) = false ∧ used c = false) :
    ex (mkFilename base (generateUniqueFilenameSuffix fns ht base ex used)) = false ∧
      used (generateUniqueFilenameSuffix fns ht base ex used) = false := by
  unfold generateUniqueFilenameSuffix
  by_cases h1 : (!ex (mkFilename base (generateFilenameSuffix fns ht)) &&
      !used (generateFilenameSuffix fns ht)) = true
  · rw [if_pos h1]
    simp only [Bool.and_eq_true, Bool.not_eq_true'] at h1
    exact h1
  · rw [if_neg h1]
    cases halt : findFreeAlternative base ex used alternatives with
    | some s => exact findFreeAlternative_some_free base ex used alternatives s halt
    | none =>
      cases hnum : findFreeNumbered (generateFilenameSuffix fns ht) base ex used 999 1 with
      | some s =>
        exact findFreeNumbered_some_free (generateFilenameSuffix fns ht) base ex used 999 1 s hnum
      | none =>
        exfalso
        obtain ⟨c, hc, hcf⟩ := hfree
        simp only [suffixCandidates, List.mem_cons, List.mem_append, List.mem_map] at hc
        rcases hc with (hc | hc) | ⟨j, hj, hcj⟩
        · subst hc
          exact h1 (by simp [hcf.1, hcf.2])
        · exact findFreeAlternative_none base ex used alternatives halt c hc hcf
        · subst hcj
          have hj' := List.mem_range'.mp hj
          exact findFreeNumbered_none (generateFilenameSuffix fns ht) base ex used 999 1 hnum j
            (by omega) (by omega) hcf

theorem splitGoFileLoop_suffixes (tds : List GenDecl) (fns : List FuncDecl)
    (imps : List ImportSpec) (fpf : Nat) (base : String) (ex wOk : String → Bool) :
    ∀ fuel i used prev,
      (∀ s, used s = true ↔ s ∈ prev) →
      (∀ k o, ((splitGoFileLoop tds fns imps fpf base ex wOk fuel i used).1)[k]? = some o →
        ∃ c ∈ suffixCandidates (generateFilenameSuffix o.funcs ((i + k) == 0)),
          ex (mkFilename base c) = false ∧
          c ∉ prev ++ ((((splitGoFileLoop tds fns imps fpf base ex wOk fuel i used).1).map
            (fun o => o.suffix)).take k)) →
      (∀ o ∈ (splitGoFileLoop tds fns imps fpf base ex wOk fuel i used).1,
        ex (mkFilename base o.suffix) = false ∧ o.suffix ∉ prev) ∧
      ((((splitGoFileLoop tds fns imps fpf base ex wOk fuel i used).1).map
        (fun o => o.suffix)).Nodup) := by
  intro fuel
  induction fuel with
  | zero =>
    intro i used prev hinv H
    simp [splitGoFileLoop]
  | succ fuel ih =>
    intro i used prev hinv H
    by_cases h : fns.length ≤ i * fpf
    · have heq : (splitGoFileLoop tds fns imps fpf base ex wOk (fuel + 1) i used).1 = [] := by
        simp only [splitGoFileLoop]
        rw [if_pos h]
      rw [heq]
      simp
    · by_cases hw : wOk (mkFilename base (generateUniqueFilenameSuffix
          ((fns.drop (i * fpf)).take (min (i * fpf + fpf) fns.length - i * fpf)) (i == 0)
          base ex used)) = true
      · have heq : (splitGoFileLoop tds fns imps fpf base ex wOk (fuel + 1) i used).1
            = ⟨generateUniqueFilenameSuffix
                ((fns.drop (i * fpf)).take (min (i * fpf + fpf) fns.length - i * fpf)) (i == 0)
                base ex used,
               if i == 0 then tds else [],
               (fns.drop (i * fpf)).take (min (i * fpf + fpf) fns.length - i * fpf),
               analyzeRequiredImports
                 ((fns.drop (i * fpf)).take (min (i * fpf + fpf) fns.length - i * fpf))
                 (if i == 0 then tds else []) imps⟩ ::
              (splitGoFileLoop tds fns imps fpf base ex wOk fuel (i + 1)
                (fun s => if s == generateUniqueFilenameSuffix
                    ((fns.drop (i * fpf)).take (min (i * fpf + fpf) fns.length - i * fpf))
                    (i == 0) base ex used then true else used s)).1 := by
          simp only [splitGoFileLoop]
          rw [if_neg h, if_pos hw]
        have hfree0 := H 0 _ (by rw [heq, List.getElem?_cons_zero])
        simp only [Nat.add_zero, List.take_zero, List.append_nil] at hfree0
        obtain ⟨c, hc, hcex, hcprev⟩ := hfree0
        have hcused : used c = false := by
          rcases Bool.eq_false_or_eq_true (used c) with h0 | h0
          · exact absurd ((hinv c).mp h0) hcprev
          · exact h0
        have hs0 := generateUnique_free
          ((fns.drop (i * fpf)).take (min (i * fpf + fpf) fns.length - i * fpf)) (i == 0)
          base ex used ⟨c, hc, hcex, hcused⟩
        have hs0prev : generateUniqueFilenameSuffix
            ((fns.drop (i * fpf)).take (min (i * fpf + fpf) fns.length - i * fpf)) (i == 0)
            base ex used ∉ prev := by
          intro hmem
          rw [← hinv _] at hmem
          rw [hs0.2] at hmem
          exact Bool.false_ne_true hmem
        have hinv' : ∀ s, (if s == generateUniqueFilenameSuffix
            ((fns.drop (i * fpf)).take (min (i * fpf + fpf) fns.length - i * fpf))
            (i == 0) base ex used then true else used s) = true ↔
            s ∈ prev ++ [generateUniqueFilenameSuffix
              ((fns.drop (i * fpf)).take (min (i * fpf + fpf) fns.length - i * fpf))
              (i == 0) base ex used] := by
          intro s
          by_cases hse : s = generateUniqueFilenameSuffix
            ((fns.drop (i * fpf)).take (min (i * fpf + fpf) fns.length - i * fpf))
            (i == 0) base ex used
          · subst hse
            simp
          · rw [if_neg (by simpa using hse)]
            rw [hinv s]
            simp [hse]
        have H' : ∀ k o, ((splitGoFileLoop tds fns imps fpf base ex wOk fuel (i + 1)
            (fun s => if s == generateUniqueFilenameSuffix
              ((fns.drop (i * fpf)).take (min (i * fpf + fpf) fns.length - i * fpf))
              (i == 0) base ex used then true else used s)).1)[k]? = some o →
            ∃ c ∈ suffixCandidates (generateFilenameSuffix o.funcs ((i + 1 + k) == 0)),
              ex (mkFilename base c) = false ∧
              c ∉ (prev ++ [generateUniqueFilenameSuffix
                ((fns.drop (i * fpf)).take (min (i * fpf + fpf) fns.length - i * fpf))
                (i == 0) base ex used]) ++
                (((splitGoFileLoop tds fns imps fpf base ex wOk fuel (i + 1)
                  (fun s => if s == generateUniqueFilenameSuffix
                    ((fns.drop (i * fpf)).take (min (i * fpf + fpf) fns.length - i * fpf))
                    (i == 0) base ex used then true else used s)).1).map
                  (fun o => o.suffix)).take k := by
          intro k o hko
          have hk1 : ((splitGoFileLoop tds fns imps fpf base ex wOk (fuel + 1) i used).1)[k + 1]?
              = some o := by
            rw [heq]
            simpa using hko
          have := H (k + 1) o hk1
          have hadd : i + (k + 1) = i + 1 + k := by omega
          rw [hadd] at this
          obtain ⟨c', hc', hcex', hcnot'⟩ := this
          refine ⟨c', hc', hcex', fun hmem => hcnot' ?_⟩
          rw [heq]
          simp only [List.map_cons, List.take_succ_cons]
          simp only [List.append_assoc, List.singleton_append] at hmem
          exact hmem
        have ihres := ih (i + 1) _ _ hinv' H'
        rw [heq]
        constructor
        · intro o ho
          rcases List.mem_cons.mp ho with ho | ho
          · subst ho
            exact ⟨hs0.1, hs0prev⟩
          · have := (ihres.1 o ho)
            refine ⟨this.1, fun hmem => this.2 ?_⟩
            simp only [List.mem_append] at *
            exact Or.inl hmem
        · simp only [List.map_cons, List.nodup_cons]
          refine ⟨fun hmem => ?_, ihres.2⟩
          simp only [List.mem_map] at hmem
          obtain ⟨o, ho, hos⟩ := hmem
          have := (ihres.1 o ho).2
          rw [hos] at this
          simp at this
      · have heq : (splitGoFileLoop tds fns imps fpf base ex wOk (fuel + 1) i used).1 = [] := by
          simp only [splitGoFileLoop]
          rw [if_neg h, if_neg hw]
        rw [heq]
        simp


theorem generateUnique_eq_base (fns : List FuncDecl) (ht : Bool) (base : String)
    (ex used : String → Bool)
    (h1 : ex (mkFilename base (generateFilenameSuffix fns ht)) = false)
    (h2 : used (generateFilenameSuffix fns ht) = false) :
    generateUniqueFilenameSuffix fns ht base ex used = generateFilenameSuffix fns ht := by
  unfold generateUniqueFilenameSuffix
  rw [if_pos (by simp [h1, h2])]

theorem generateUnique_eq_alt (fns : List FuncDecl) (ht : Bool) (base : String)
    (ex used : String → Bool) (a : String)
    (hcol : ex (mkFilename base (generateFilenameSuffix fns ht)) = true ∨
      used (generateFilenameSuffix fns ht) = true)
    (ha : findFreeAlternative base ex used alternatives = some a) :
    generateUniqueFilenameSuffix fns ht base ex used = a := by
  unfold generateUniqueFilenameSuffix
  rw [if_neg (by rcases hcol with hcol | hcol <;> simp [hcol]), ha]

/-- C1: for every successfully split input, concatenating the function lists of
the emitted groups in group-index order yields exactly the original
function-declaration list — no function is duplicated, none is dropped, and
the original relative order is preserved within and across groups. -/
theorem claim_c1 (tds : List GenDecl) (fns : List FuncDecl)
    (imps : List ImportSpec) (n : Nat) (base : String) (ex : String → Bool)
    (hn : 1 ≤ n) (hf : fns ≠ []) :
    (((splitGoFile tds fns imps n base ex (fun _ => true)).1).map (fun o => o.funcs)).flatten
      = fns :=
  split_preserves_functions tds fns imps n base ex hn hf

/-- Witness for C1 at a concrete run: 7 functions into 3 files. -/
theorem claim_c1_witness :
    (((splitGoFile [] (sampleFns 7) [] 3 ("base") (fun _ => false) (fun _ => true)).1).map
      (fun o => o.funcs)).flatten = sampleFns 7 :=
  claim_c1 [] (sampleFns 7) [] 3 ("base") (fun _ => false) (by decide)
    (List.ne_nil_of_length_pos (by decide))

/-- C4: given `F` functions and `N ≥ 1` requested files, the partitioner
produces contiguous groups of size `ceil(F/N)` in original order, only the
final emitted group possibly shorter; trailing empty groups are not emitted.
In particular 7 functions into 3 files gives group sizes 3, 3, 1, and 5
requested files for 2 functions gives exactly 2 output files. -/
theorem claim_c4 (tds : List GenDecl) (fns : List FuncDecl)
    (imps : List ImportSpec) (n : Nat) (base : String) (ex : String → Bool)
    (_hn : 1 ≤ n) (hf : fns ≠ []) :
    (∀ o ∈ (splitGoFile tds fns imps n base ex (fun _ => true)).1, o.funcs ≠ []) ∧
    (∀ g ∈ ((((splitGoFile tds fns imps n base ex (fun _ => true)).1).map
        (fun o => o.funcs)).dropLast), g.length = funcsPerFileCalc fns.length n) ∧
    (∀ o ∈ (splitGoFile tds fns imps n base ex (fun _ => true)).1,
      o.funcs.length ≤ funcsPerFileCalc fns.length n) ∧
    ((splitGoFile [] (sampleFns 7) [] 3 ("base") (fun _ => false) (fun _ => true)).1.map
      (fun o => o.funcs.length) = [3, 3, 1]) ∧
    ((splitGoFile [] (sampleFns 2) [] 5 ("base") (fun _ => false) (fun _ => true)).1.length = 2) := by
  have hlen : 1 ≤ fns.length := List.length_pos.mpr hf
  have hfpf : 1 ≤ funcsPerFileCalc fns.length n := one_le_funcsPerFile fns.length n hlen
  have hmap : (((splitGoFile tds fns imps n base ex (fun _ => true)).1).map (fun o => o.funcs))
      = splitGroupsAux fns (funcsPerFileCalc fns.length n) n 0 := by
    unfold splitGoFile
    rw [if_neg (by simp only [beq_iff_eq]; omega)]
    exact splitGoFileLoop_map_funcs tds fns imps _ base ex n 0 _
  refine ⟨?_, ?_, ?_, by decide, by decide⟩
  · intro o ho
    have : o.funcs ∈ splitGroupsAux fns (funcsPerFileCalc fns.length n) n 0 := by
      rw [← hmap]
      exact List.mem_map_of_mem _ ho
    exact (splitGroupsAux_mem_length fns _ n 0 _ this).2 hfpf
  · intro g hg
    rw [hmap] at hg
    exact splitGroupsAux_dropLast fns _ n 0 g hg
  · intro o ho
    have : o.funcs ∈ splitGroupsAux fns (funcsPerFileCalc fns.length n) n 0 := by
      rw [← hmap]
      exact List.mem_map_of_mem _ ho
    exact (splitGroupsAux_mem_length fns _ n 0 _ this).1

/-- Witness for C4 at a concrete run: 7 functions into 3 files. -/
theorem claim_c4_witness :
    (∀ o ∈ (splitGoFile [] (sampleFns 7) [] 3 ("base") (fun _ => false) (fun _ => true)).1,
      o.funcs ≠ []) ∧
    (∀ g ∈ ((((splitGoFile [] (sampleFns 7) [] 3 ("base") (fun _ => false) (fun _ => true)).1).map
        (fun o => o.funcs)).dropLast), g.length = funcsPerFileCalc (sampleFns 7).length 3) ∧
    (∀ o ∈ (splitGoFile [] (sampleFns 7) [] 3 ("base") (fun _ => false) (fun _ => true)).1,
      o.funcs.length ≤ funcsPerFileCalc (sampleFns 7).length 3) ∧
    ((splitGoFile [] (sampleFns 7) [] 3 ("base") (fun _ => false) (fun _ => true)).1.map
      (fun o => o.funcs.length) = [3, 3, 1]) ∧
    ((splitGoFile [] (sampleFns 2) [] 5 ("base") (fun _ => false) (fun _ => true)).1.length = 2) :=
  claim_c4 [] (sampleFns 7) [] 3 ("base") (fun _ => false) (by decide)
    (List.ne_nil_of_length_pos (by decide))

/-- C10: for every `F ≥ 1` and `N ≥ 1`, the number of output files written on
a successful run equals `ceil(F / ceil(F/N))` (written below with the
natural-number identity `ceil(a/b) = (a + b - 1) / b`), which can be
strictly less than `N` even when `N ≤ F`: 5 functions into 4 requested
files yields 3 output files, not `min 4 5`. -/
theorem claim_c10 (tds : List GenDecl) (fns : List FuncDecl)
    (imps : List ImportSpec) (n : Nat) (base : String) (ex : String → Bool)
    (hn : 1 ≤ n) (hf : fns ≠ []) :
    ((splitGoFile tds fns imps n base ex (fun _ => true)).1).length
      = (fns.length + funcsPerFileCalc fns.length n - 1) / funcsPerFileCalc fns.length n ∧
    ((splitGoFile [] (sampleFns 5) [] 4 ("base") (fun _ => false) (fun _ => true)).1).length = 3 ∧
    ((splitGoFile [] (sampleFns 5) [] 4 ("base") (fun _ => false) (fun _ => true)).1).length
      ≠ min 4 (sampleFns 5).length :=
  ⟨splitGoFile_count tds fns imps n base ex hn hf, by decide, by decide⟩

/-- Witness for C10 at a concrete run: 5 functions into 4 requested files. -/
theorem claim_c10_witness :
    ((splitGoFile [] (sampleFns 5) [] 4 ("base") (fun _ => false) (fun _ => true)).1).length
      = ((sampleFns 5).length + funcsPerFileCalc (sampleFns 5).length 4 - 1)
        / funcsPerFileCalc (sampleFns 5).length 4 ∧
    ((splitGoFile [] (sampleFns 5) [] 4 ("base") (fun _ => false) (fun _ => true)).1).length = 3 ∧
    ((splitGoFile [] (sampleFns 5) [] 4 ("base") (fun _ => false) (fun _ => true)).1).length
      ≠ min 4 (sampleFns 5).length :=
  claim_c10 [] (sampleFns 5) [] 4 ("base") (fun _ => false) (by decide)
    (List.ne_nil_of_length_pos (by decide))

/-- C5: in every run, group 0 — and only group 0 — receives the full original
type-declaration list (even when that list is empty); every group with
index greater than 0 receives no type declarations. -/
theorem claim_c5 (tds : List GenDecl) (fns : List FuncDecl)
    (imps : List ImportSpec) (n : Nat) (base : String) (ex : String → Bool)
    (hn : 1 ≤ n) (hf : fns ≠ []) :
    ∃ o rest, (splitGoFile tds fns imps n base ex (fun _ => true)).1 = o :: rest ∧
      o.types = tds ∧ ∀ o' ∈ rest, o'.types = [] :=
  splitGoFile_head_types tds fns imps n base ex hn hf

/-- Witness for C5 at a concrete run with one type declaration. -/
theorem claim_c5_witness :
    ∃ o rest, (splitGoFile [⟨[GoNode.ident ("T")]⟩] (sampleFns 3) [] 2 ("base")
        (fun _ => false) (fun _ => true)).1 = o :: rest ∧
      o.types = [⟨[GoNode.ident ("T")]⟩] ∧ ∀ o' ∈ rest, o'.types = [] :=
  claim_c5 [⟨[GoNode.ident ("T")]⟩] (sampleFns 3) [] 2 ("base") (fun _ => false) (by decide)
    (List.ne_nil_of_length_pos (by decide))

/-- C8: if the parsed input contains zero function declarations (even with
type declarations present), the operation fails with the empty-input error
before any partitioning and no output file is written. -/
theorem claim_c8 (tds : List GenDecl) (imps : List ImportSpec) (n : Nat)
    (base : String) (ex wOk : String → Bool) :
    splitGoFile tds [] imps n base ex wOk
      = ([], Except.error ("no functions found in file")) := rfl

/-- Witness for C8: type declarations present, zero functions. -/
theorem claim_c8_witness :
    splitGoFile [⟨[GoNode.ident ("T")]⟩] [] [] 3 ("base") (fun _ => false) (fun _ => true)
      = ([], Except.error ("no functions found in file")) :=
  claim_c8 [⟨[GoNode.ident ("T")]⟩] [] 3 ("base") (fun _ => false) (fun _ => true)

/-- C9: if creating or writing the output file for group `k` fails, the run
returns the write error immediately: the files written are exactly those of
groups `0 … k-1` (they are left in place, no rollback), and no later group
is processed or written. -/
theorem claim_c9 (tds : List GenDecl) (fns : List FuncDecl) (imps : List ImportSpec)
    (n : Nat) (base : String) (ex wOk : String → Bool) (k : Nat) (si : String)
    (hk : (((splitGoFile tds fns imps n base ex (fun _ => true)).1).map
      (fun o => o.suffix))[k]? = some si)
    (hfail : wOk (mkFilename base si) = false)
    (hpre : ∀ s ∈ ((((splitGoFile tds fns imps n base ex (fun _ => true)).1).map
      (fun o => o.suffix)).take k), wOk (mkFilename base s) = true) :
    splitGoFile tds fns imps n base ex wOk
      = (((splitGoFile tds fns imps n base ex (fun _ => true)).1).take k,
         Except.error ("failed to write " ++ mkFilename base si)) := by
  by_cases h0 : (fns.length == 0) = true
  · unfold splitGoFile at hk
    rw [if_pos h0] at hk
    simp at hk
  · unfold splitGoFile at hk hpre ⊢
    rw [if_neg h0] at hk hpre ⊢
    rw [if_neg h0]
    exact splitGoFileLoop_write_fail tds fns imps _ base ex wOk n 0 _ k si hk hfail hpre

/-- Witness for C9 at a concrete run: the write of the second group (file
`base_q.go`) fails, the first group's file stays, the error is returned. -/
theorem claim_c9_witness :
    splitGoFile [] (sampleFns 2) [] 2 ("base") (fun _ => false)
        (fun f => !(f == "base_q.go"))
      = (((splitGoFile [] (sampleFns 2) [] 2 ("base") (fun _ => false) (fun _ => true)).1).take 1,
         Except.error ("failed to write " ++ mkFilename ("base") ("q"))) :=
  claim_c9 [] (sampleFns 2) [] 2 ("base") (fun _ => false) (fun f => !(f == "base_q.go")) 1 ("q")
    (by decide) (by decide) (by decide)

/-- C2: an import entry appears in a group's emitted import list iff its bound
name (alias if present, else last path segment) is in the identifier set
collected by traversing the group's function declarations and its type
declarations (group 0 carries them); the retained subset preserves the
original import-list order, and every emitted file's import list is exactly
this filtered list for its own functions and types. -/
theorem claim_c2 (fns : List FuncDecl) (tds : List GenDecl) (imps : List ImportSpec) :
    (∀ imp, imp ∈ analyzeRequiredImports fns tds imps ↔
      imp ∈ imps ∧ (usedIdentifiers fns tds).contains (importName imp) = true) ∧
    (analyzeRequiredImports fns tds imps).Sublist imps ∧
    (∀ (n : Nat) (base : String) (ex wOk : String → Bool),
      ∀ o ∈ (splitGoFile tds fns imps n base ex wOk).1,
        o.imports = analyzeRequiredImports o.funcs o.types imps) := by
  refine ⟨?_, ?_, ?_⟩
  · intro imp
    unfold analyzeRequiredImports
    rw [List.mem_filter]
  · exact List.filter_sublist _
  · intro n base ex wOk o ho
    unfold splitGoFile at ho
    by_cases h0 : (fns.length == 0) = true
    · rw [if_pos h0] at ho
      simp at ho
    · rw [if_neg h0] at ho
      exact splitGoFileLoop_imports_eq tds fns imps _ base ex wOk n 0 _ o ho

/-- C3 (amended): within a single run, provided each group's candidate search
does not exhaust — i.e. for each emitted group some candidate among its
base suffix, the alternative-word list and the numbered variants 1–999 is
absent from the directory snapshot and distinct from every suffix chosen
earlier in the run — every chosen suffix is distinct from every earlier one
and no chosen suffix produces a filename present in the snapshot.  (The
unamended claim is refuted by `claim_c3_counterexample`: when the search
exhausts, the unchecked terminal fallback is returned.) -/
theorem claim_c3_amended (tds : List GenDecl) (fns : List FuncDecl) (imps : List ImportSpec)
    (n : Nat) (base : String) (ex wOk : String → Bool)
    (H : ∀ k bs, ((((splitGoFile tds fns imps n base ex wOk).1).enum).map
        (fun p => generateFilenameSuffix p.2.funcs (p.1 == 0)))[k]? = some bs →
      ∃ c ∈ suffixCandidates bs, ex (mkFilename base c) = false ∧
        c ∉ ((((splitGoFile tds fns imps n base ex wOk).1).map (fun o => o.suffix)).take k)) :
    (∀ o ∈ (splitGoFile tds fns imps n base ex wOk).1,
      ex (mkFilename base o.suffix) = false) ∧
    ((((splitGoFile tds fns imps n base ex wOk).1).map (fun o => o.suffix)).Nodup) := by
  by_cases h0 : (fns.length == 0) = true
  · have heq : (splitGoFile tds fns imps n base ex wOk).1 = [] := by
      unfold splitGoFile
      rw [if_pos h0]
    rw [heq]
    simp
  · unfold splitGoFile at H ⊢
    rw [if_neg h0] at H ⊢
    have res := splitGoFileLoop_suffixes tds fns imps (funcsPerFileCalc fns.length n) base ex wOk
      n 0 (fun _ => false) [] (by simp) ?_
    · exact ⟨fun o ho => (res.1 o ho).1, res.2⟩
    · intro k o hko
      have hbs : ((((splitGoFileLoop tds fns imps (funcsPerFileCalc fns.length n) base ex wOk
          n 0 (fun _ => false)).1).enum).map
          (fun p => generateFilenameSuffix p.2.funcs (p.1 == 0)))[k]? =
          some (generateFilenameSuffix o.funcs (k == 0)) := by
        rw [List.getElem?_map, List.getElem?_enum, hko]
        rfl
      have := H k _ hbs
      simpa using this

/-- Witness for C3 (amended) at a concrete run: 3 functions into 2 files with
an empty snapshot; the candidate-search hypothesis is discharged with the
base suffixes "types" and "q" themselves. -/
theorem claim_c3_witness :
    (∀ o ∈ (splitGoFile [] (sampleFns 3) [] 2 ("base") (fun _ => false) (fun _ => true)).1,
      (fun (_ : String) => false) (mkFilename ("base") o.suffix) = false) ∧
    ((((splitGoFile [] (sampleFns 3) [] 2 ("base") (fun _ => false) (fun _ => true)).1).map
      (fun o => o.suffix)).Nodup) := by
  apply claim_c3_amended [] (sampleFns 3) [] 2 ("base") (fun _ => false) (fun _ => true)
  intro k bs hk
  have hlist : ((((splitGoFile [] (sampleFns 3) [] 2 ("base") (fun _ => false)
      (fun _ => true)).1).enum).map
      (fun p => generateFilenameSuffix p.2.funcs (p.1 == 0))) = ["types", "q"] := by decide
  rw [hlist] at hk
  match k, hk with
  | 0, hk =>
    injection hk with h
    subst h
    exact ⟨"types", List.mem_cons_self _ _, rfl, by decide⟩
  | 1, hk =>
    injection hk with h
    subst h
    exact ⟨"q", List.mem_cons_self _ _, rfl, by decide⟩
  | k + 2, hk => simp at hk

set_option maxRecDepth 1000000 in
/-- C3 counterexample: with a snapshot that contains every `.go` filename, all
candidate suffixes of every group collide, so the run falls back to the
unchecked terminal suffixes `types999`, `q999`, `q999`: the chosen suffixes
are not pairwise distinct, and each produced filename was present in the
snapshot (the snapshot predicate is constantly `true`). -/
theorem claim_c3_counterexample :
    ((splitGoFile [] [⟨some ("Aaa"), []⟩, ⟨some ("Qbb"), []⟩, ⟨some ("Qcc"), []⟩] [] 3 ("base")
        (fun _ => true) (fun _ => true)).1.map (fun o => o.suffix))
      = ["types999", "q999", "q999"] ∧
    ¬ (((splitGoFile [] [⟨some ("Aaa"), []⟩, ⟨some ("Qbb"), []⟩, ⟨some ("Qcc"), []⟩] [] 3 ("base")
        (fun _ => true) (fun _ => true)).1.map (fun o => o.suffix)).Nodup) := by
  constructor
  · decide
  · decide


/-- Witness for C2 at a concrete function group using `fmt.Println`
with imports `"fmt"` and `"go/ast"`. -/
theorem claim_c2_witness :
    (∀ imp, imp ∈ analyzeRequiredImports sampleImportFns [] sampleImports ↔
      imp ∈ sampleImports ∧
        (usedIdentifiers sampleImportFns []).contains (importName imp) = true) ∧
    (analyzeRequiredImports sampleImportFns [] sampleImports).Sublist sampleImports ∧
    (∀ (n : Nat) (base : String) (ex wOk : String → Bool),
      ∀ o ∈ (splitGoFile [] sampleImportFns sampleImports n base ex wOk).1,
        o.imports = analyzeRequiredImports o.funcs o.types sampleImports) :=
  claim_c2 sampleImportFns [] sampleImports

/-- C6 counterexample: the claim says the type-bearing group's suffix equals
"types" regardless of pre-existing files, but when `base_types.go` is
already present in the snapshot, collision resolution picks the first
alternative word "core" instead. -/
theorem claim_c6_counterexample :
    generateUniqueFilenameSuffix [⟨some ("Aaa"), []⟩] true ("base")
        (fun f => f == "base_types.go") (fun _ => false) = "core" ∧
    ("core" : String) ≠ "types" := by
  constructor
  · decide
  · decide

/-- C6 (amended): for the type-bearing group the base suffix is the fixed
literal "types", overriding the keyword scan for every input — but
collision checking still applies, so the chosen suffix equals "types"
(only) whenever `<base>_types.go` is absent from the snapshot and "types"
has not been used earlier in the run. -/
theorem claim_c6_amended :
    (∀ fns : List FuncDecl, generateFilenameSuffix fns true = "types") ∧
    (∀ (fns : List FuncDecl) (base : String) (ex used : String → Bool),
      ex (mkFilename base ("types")) = false → used ("types") = false →
      generateUniqueFilenameSuffix fns true base ex used = "types") :=
  ⟨fun _ => rfl,
   fun fns base ex used h1 h2 => generateUnique_eq_base fns true base ex used h1 h2⟩

/-- Witness for C6 (amended) at concrete inputs with an empty snapshot. -/
theorem claim_c6_witness :
    generateFilenameSuffix [] true = "types" ∧
    generateUniqueFilenameSuffix [] true ("base") (fun _ => false) (fun _ => false) = "types" :=
  ⟨claim_c6_amended.1 [], claim_c6_amended.2 [] "base" (fun _ => false) (fun _ => false) rfl rfl⟩

/-- C7 counterexample: for the group `[Zzz]` no vocabulary keyword matches and
nothing collides; the claim predicts the first free alternative-list entry
("core"), but the code returns the lower-cased first character "z" of the
first function name. -/
theorem claim_c7_counterexample :
    (keywords.find? (fun keyword =>
      (([⟨some ("Zzz"), []⟩] : List FuncDecl).filterMap (fun fn => fn.name.map goToLower)).any
        (fun nm => goContains nm keyword)) = none) ∧
    findFreeAlternative ("base") (fun _ => false) (fun _ => false) alternatives = some ("core") ∧
    generateUniqueFilenameSuffix [⟨some ("Zzz"), []⟩] false ("base") (fun _ => false)
      (fun _ => false) = "z" ∧
    ("z" : String) ≠ "core" :=
  ⟨by decide, by decide, by decide, by decide⟩

/-- C7 (amended): for a non-type-bearing group the base suffix (which, when no
keyword matches, is the lower-cased first character of the first function
name rather than an alternative-list entry) is returned whenever it is
collision-free; the alternative-word list is consulted only when the base
suffix collides with a pre-existing file or an already-used suffix, and
then the first free entry of that list is chosen. -/
theorem claim_c7_amended (fns : List FuncDecl) (base : String) (ex used : String → Bool)
    (a : String) :
    (ex (mkFilename base (generateFilenameSuffix fns false)) = false →
     used (generateFilenameSuffix fns false) = false →
     generateUniqueFilenameSuffix fns false base ex used = generateFilenameSuffix fns false) ∧
    ((ex (mkFilename base (generateFilenameSuffix fns false)) = true ∨
      used (generateFilenameSuffix fns false) = true) →
     findFreeAlternative base ex used alternatives = some a →
     generateUniqueFilenameSuffix fns false base ex used = a) :=
  ⟨fun h1 h2 => generateUnique_eq_base fns false base ex used h1 h2,
   fun hcol ha => generateUnique_eq_alt fns false base ex used a hcol ha⟩

/-- Witness for C7 (amended): the free case returns the first-letter base
suffix "z"; with `base_z.go` occupied the first alternative "core" wins. -/
theorem claim_c7_witness :
    generateUniqueFilenameSuffix [⟨some ("Zzz"), []⟩] false ("base") (fun _ => false)
        (fun _ => false) = generateFilenameSuffix [⟨some ("Zzz"), []⟩] false ∧
    generateUniqueFilenameSuffix [⟨some ("Zzz"), []⟩] false ("base")
        (fun f => f == "base_z.go") (fun _ => false) = "core" :=
  ⟨(claim_c7_amended [⟨some ("Zzz"), []⟩] "base" (fun _ => false) (fun _ => false) "core").1
      rfl rfl,
   (claim_c7_amended [⟨some ("Zzz"), []⟩] "base" (fun f => f == "base_z.go") (fun _ => false)
      "core").2 (Or.inl (by decide)) (by decide)⟩
